import Mathlib

/-!
Verification of `sdks/python/apache_beam/metrics/cells.py`: a shallow
embedding of the metric-cell layer (commit-state tracker, counter cells,
distribution cells, the distribution combination algebra and the
aggregators), with theorems settling the specified properties.

Python mutable objects become Lean structures passed explicitly; Python
exceptions become `Except`, where the error payload carries the object
state at the moment the exception is raised (mutations already performed
persist past a raised exception in Python, and the embedding keeps them).
Python arbitrary-precision integers become `Int`; Python floats are
modelled as rationals.
-/

namespace Beam

/-- The three states of `CellCommitState` (class constants DIRTY = 0,
CLEAN = 1, COMMITTING = 2 in the source). -/
inductive CommitState where
  | DIRTY
  | CLEAN
  | COMMITTING
deriving DecidableEq

namespace CellCommitState

/-- `CellCommitState.__init__`: a cell's tracker starts dirty
(`self._state = CellCommitState.DIRTY`). -/
def init : CommitState := .DIRTY

/-- `CellCommitState.after_modification`: unconditionally sets the state
to DIRTY. -/
def after_modification (_ : CommitState) : CommitState := .DIRTY

/-- `CellCommitState.after_commit`: sets the state to CLEAN when it is
COMMITTING, otherwise leaves it unchanged. -/
def after_commit : CommitState → CommitState
  | .COMMITTING => .CLEAN
  | s => s

/-- `CellCommitState.before_commit`: returns `false` and leaves the state
alone when it is CLEAN; otherwise sets the state to COMMITTING and
returns `true`.  The pair is (returned boolean, state afterwards). -/
def before_commit : CommitState → Bool × CommitState
  | .CLEAN => (false, .CLEAN)
  | _ => (true, .COMMITTING)

end CellCommitState

/-- One call a client can make on a `CellCommitState` (reads of `.state`
do not change the state and are omitted). -/
inductive CommitOp where
  | modification
  | beforeC
  | afterC
deriving DecidableEq

/-- The state change performed by one call (the boolean result of
`before_commit` is discarded here; theorems recover it from the state). -/
def commitStep (s : CommitState) : CommitOp → CommitState
  | .modification => CellCommitState.after_modification s
  | .beforeC => (CellCommitState.before_commit s).2
  | .afterC => CellCommitState.after_commit s

/-- Run a sequence of calls against a tracker state. -/
def commitRun (s : CommitState) (ops : List CommitOp) : CommitState :=
  ops.foldl commitStep s

/-- A completed commit handshake occurs inside a call sequence: some
`before_commit` call followed (not necessarily immediately) by an
`after_commit` call. -/
def HandshakeIn (ops : List CommitOp) : Prop :=
  ∃ l m r, ops = l ++ CommitOp.beforeC :: m ++ CommitOp.afterC :: r

/-- The state held by a `MetricCell` backing a distribution metric:
`self.commit` (a `CellCommitState`) and `self.data` (a
`DistributionData`). -/
structure DistributionData where
  sum : Int
  count : Int
  min : Option Int
  max : Option Int
deriving DecidableEq

namespace DistributionData

/-- `DistributionData.get_cumulative`: a field-wise copy (the same
value). -/
def get_cumulative (d : DistributionData) : DistributionData :=
  ⟨d.sum, d.count, d.min, d.max⟩

/-- Models `None if a is None and b is None else min(x for x in (a, b)
if x is not None)` from `DistributionData.combine`. -/
def minNonNone : Option Int → Option Int → Option Int
  | none, none => none
  | some x, none => some x
  | none, some y => some y
  | some x, some y => some (Min.min x y)

/-- Models `None if a is None and b is None else max(x for x in (a, b)
if x is not None)` from `DistributionData.combine`. -/
def maxNonNone : Option Int → Option Int → Option Int
  | none, none => none
  | some x, none => some x
  | none, some y => some y
  | some x, some y => some (Max.max x y)

/-- `DistributionData.combine(self, other)`: returns `self` when `other`
is `None`, otherwise a new `DistributionData` with summed sum and count
and the min/max of the non-`None` extrema. -/
def combine (d : DistributionData) (other : Option DistributionData) :
    DistributionData :=
  match other with
  | none => d
  | some o =>
      { sum := d.sum + o.sum
        count := d.count + o.count
        min := minNonNone d.min o.min
        max := maxNonNone d.max o.max }

/-- `DistributionData.singleton(value)`: `(sum=value, count=1,
min=value, max=value)`. -/
def singleton (value : Int) : DistributionData :=
  ⟨value, 1, some value, some value⟩

end DistributionData

/-- A Python value passed by a caller into `inc`/`update`: an int, a
float (modelled as a rational), or a non-numeric object such as `None`,
on which both `int(value)` and `self.value + value` raise. -/
inductive PyVal where
  | vint (n : Int)
  | vfloat (q : ℚ)
  | vnone
deriving DecidableEq

/-- Python `int()` applied to a float: truncation toward zero. -/
def pyTrunc (q : ℚ) : Int :=
  if 0 ≤ q then ⌊q⌋ else ⌈q⌉

/-- Python `int(value)`: identity on ints, truncation toward zero on
floats, raises (`none`) on non-numeric values. -/
def pyInt : PyVal → Option Int
  | .vint n => some n
  | .vfloat q => some (pyTrunc q)
  | .vnone => none

/-- Python numeric coercion used by `self.value + n`: succeeds on ints
and floats, raises (`none`) on non-numeric values. -/
def pyNum : PyVal → Option ℚ
  | .vint n => some (n : ℚ)
  | .vfloat q => some q
  | .vnone => none

/-- The mutable state of a `CounterCell`: `self.value` and
`self.commit`.  The value is a rational because Python lets the running
value become a float once a float is added. -/
structure CounterCellState where
  value : ℚ
  commit : CommitState
deriving DecidableEq

namespace CounterCell

/-- `CounterCell.__init__`: `self.value = 0`, fresh commit tracker. -/
def init : CounterCellState := ⟨0, CellCommitState.init⟩

/-- `CounterCell.inc(self, n)` for a numeric `n` already coerced:
`self.value += n; self.commit.after_modification()`. -/
def inc (c : CounterCellState) (n : ℚ) : CounterCellState :=
  { value := c.value + n
    commit := CellCommitState.after_modification c.commit }

/-- `CounterCell.inc(self, n)` on an arbitrary Python argument:
`self.value += n` raises on a non-addable `n` before any mutation and
before `after_modification` is reached, so the error carries the cell
unchanged. -/
def incChecked (c : CounterCellState) (n : PyVal) :
    Except CounterCellState CounterCellState :=
  match pyNum n with
  | none => .error c
  | some q => .ok (inc c q)

/-- `CounterCell.combine(self, other)`: builds a fresh cell and calls
`result.inc(self.value + other.value)` on it. -/
def combine (a b : CounterCellState) : CounterCellState :=
  inc init (a.value + b.value)

/-- `CounterCell.get_cumulative`: the current value. -/
def get_cumulative (c : CounterCellState) : ℚ := c.value

end CounterCell

/-- The mutable state of a `DistributionCell`: `self.commit` and
`self.data`. -/
structure DistributionCellState where
  commit : CommitState
  data : DistributionData
deriving DecidableEq

namespace DistributionCell

/-- `DistributionCell.__init__`: `self.data = DistributionData(0, 0,
None, None)`, fresh commit tracker. -/
def init : DistributionCellState :=
  ⟨CellCommitState.init, ⟨0, 0, none, none⟩⟩

/-- The body of `DistributionCell._update` after `value = int(value)`
has produced the integer `value`: `count += 1; sum += value;` min/max
updated when absent or improved. -/
def updateData (d : DistributionData) (value : Int) : DistributionData :=
  { sum := d.sum + value
    count := d.count + 1
    min :=
      match d.min with
      | none => some value
      | some m => if m > value then some value else some m
    max :=
      match d.max with
      | none => some value
      | some m => if m < value then some value else some m }

/-- `DistributionCell.update(self, value)`: under the lock, first
`self.commit.after_modification()`, then `self._update(value)`, whose
first statement `value = int(value)` raises on a non-convertible value —
after the dirty bit is already set but before any data field is touched.
The error carries the state at the raise. -/
def update (c : DistributionCellState) (value : PyVal) :
    Except DistributionCellState DistributionCellState :=
  let c1 : DistributionCellState :=
    { c with commit := CellCommitState.after_modification c.commit }
  match pyInt value with
  | none => .error c1
  | some n => .ok { c1 with data := updateData c1.data n }

/-- `DistributionCell.combine(self, other)`: a fresh cell whose data is
`self.data.combine(other.data)`. -/
def combine (a b : DistributionCellState) : DistributionCellState :=
  ⟨CellCommitState.init, a.data.combine (some b.data)⟩

/-- `DistributionCell.get_cumulative`: snapshot of the data. -/
def get_cumulative (c : DistributionCellState) : DistributionData :=
  c.data.get_cumulative

end DistributionCell

/-- `DistributionResult`: a read-only view over a `DistributionData`. -/
structure DistributionResult where
  data : DistributionData
deriving DecidableEq

namespace DistributionResult

/-- `DistributionResult.mean`: `None` when the count is zero, otherwise
`float(sum)/count`. -/
def mean (r : DistributionResult) : Option ℚ :=
  if r.data.count = 0 then none
  else some ((r.data.sum : ℚ) / (r.data.count : ℚ))

end DistributionResult

/-- `CounterAggregator.zero`: `0`. -/
def CounterAggregator.zero : Int := 0

/-- `CounterAggregator.combine(x, y)`: `int(x) + int(y)` (identity
coercion on the ints the aggregator operates over). -/
def CounterAggregator.combine (x y : Int) : Int := x + y

/-- `CounterAggregator.result(x)`: `int(x)`. -/
def CounterAggregator.result (x : Int) : Int := x

/-- `DistributionAggregator.zero`: `DistributionData(0, 0, None,
None)`. -/
def DistributionAggregator.zero : DistributionData := ⟨0, 0, none, none⟩

/-- `DistributionAggregator.combine(x, y)`: `x.combine(y)`. -/
def DistributionAggregator.combine (x y : DistributionData) :
    DistributionData :=
  x.combine (some y)

/-- `DistributionAggregator.result(x)`: wraps `x.get_cumulative()` in a
`DistributionResult`. -/
def DistributionAggregator.result (x : DistributionData) :
    DistributionResult :=
  ⟨x.get_cumulative⟩

/-- The distribution values reachable through the public operations —
the aggregator's zero, `singleton`, `_update` steps and `combine` —
paired with the multiset of integer values ever added into them. -/
inductive Reaches : DistributionData → Multiset Int → Prop where
  | zero : Reaches DistributionAggregator.zero 0
  | singleton (v : Int) : Reaches (DistributionData.singleton v) {v}
  | update (d : DistributionData) (vs : Multiset Int) (v : Int) :
      Reaches d vs → Reaches (DistributionCell.updateData d v) (v ::ₘ vs)
  | combine (a b : DistributionData) (va vb : Multiset Int) :
      Reaches a va → Reaches b vb → Reaches (a.combine (some b)) (va + vb)

end Beam

namespace Beam

/-- **C2.** `CellCommitState` implements exactly the specified
transition function: a fresh tracker starts DIRTY and its first
`before_commit` returns true; `before_commit` returns false and leaves
CLEAN fixed, and from DIRTY or COMMITTING moves to COMMITTING returning
true; `after_commit` maps COMMITTING to CLEAN and fixes DIRTY and CLEAN;
`after_modification` maps every state to DIRTY. -/
theorem commitState_transition_function :
    CellCommitState.init = CommitState.DIRTY ∧
    (CellCommitState.before_commit CellCommitState.init).1 = true ∧
    CellCommitState.before_commit .CLEAN = (false, .CLEAN) ∧
    CellCommitState.before_commit .DIRTY = (true, .COMMITTING) ∧
    CellCommitState.before_commit .COMMITTING = (true, .COMMITTING) ∧
    CellCommitState.after_commit .COMMITTING = .CLEAN ∧
    CellCommitState.after_commit .DIRTY = .DIRTY ∧
    CellCommitState.after_commit .CLEAN = .CLEAN ∧
    ∀ s : CommitState, CellCommitState.after_modification s = .DIRTY :=
  ⟨rfl, rfl, rfl, rfl, rfl, rfl, rfl, rfl, fun _ => rfl⟩

/-- **C10.** `DistributionData.combine` treats a `None` operand as a
right identity: `combine(a, None)` returns `a` itself unchanged. -/
theorem combine_none_is_identity :
    ∀ a : DistributionData, a.combine none = a :=
  fun _ => rfl

/-- **C5.** `DistributionData.combine` adds sums and counts and takes
the min (resp. max) of the non-empty extrema, empty only when both are
empty; the two-singleton instance has sum `v+w`, count 2, min `min v w`
and max `max v w`.  The min/max fields are compared against an
independent spec-side rendering: the `List.min?`/`List.max?` of the
present extrema. -/
theorem distribution_combine_fieldwise :
    (∀ a b : DistributionData,
      a.combine (some b) =
        ⟨a.sum + b.sum, a.count + b.count,
         ([a.min, b.min].filterMap id).min?,
         ([a.max, b.max].filterMap id).max?⟩) ∧
    (∀ v w : Int,
      (DistributionData.singleton v).combine
          (some (DistributionData.singleton w)) =
        ⟨v + w, 2, some (Min.min v w), some (Max.max v w)⟩) := by
  constructor
  · intro a b
    obtain ⟨as, ac, am, aM⟩ := a
    obtain ⟨bs, bc, bm, bM⟩ := b
    cases am <;> cases bm <;> cases aM <;> cases bM <;>
      simp [DistributionData.combine, DistributionData.minNonNone,
        DistributionData.maxNonNone, List.min?, List.max?]
  · intro v w
    simp [DistributionData.singleton, DistributionData.combine,
      DistributionData.minNonNone, DistributionData.maxNonNone]

/-- `minNonNone` is commutative. -/
theorem minNonNone_comm (x y : Option Int) :
    DistributionData.minNonNone x y = DistributionData.minNonNone y x := by
  cases x <;> cases y <;>
    simp [DistributionData.minNonNone, min_comm]

/-- `maxNonNone` is commutative. -/
theorem maxNonNone_comm (x y : Option Int) :
    DistributionData.maxNonNone x y = DistributionData.maxNonNone y x := by
  cases x <;> cases y <;>
    simp [DistributionData.maxNonNone, max_comm]

/-- `minNonNone` is associative. -/
theorem minNonNone_assoc (x y z : Option Int) :
    DistributionData.minNonNone (DistributionData.minNonNone x y) z =
      DistributionData.minNonNone x (DistributionData.minNonNone y z) := by
  cases x <;> cases y <;> cases z <;>
    simp [DistributionData.minNonNone, min_assoc]

/-- `maxNonNone` is associative. -/
theorem maxNonNone_assoc (x y z : Option Int) :
    DistributionData.maxNonNone (DistributionData.maxNonNone x y) z =
      DistributionData.maxNonNone x (DistributionData.maxNonNone y z) := by
  cases x <;> cases y <;> cases z <;>
    simp [DistributionData.maxNonNone, max_assoc]

/-- **C6.** `DistributionData.combine` is commutative and associative,
and `(sum=0, count=0, min=empty, max=empty)` — which is exactly
`DistributionAggregator.zero()` — is a two-sided identity for it. -/
theorem distribution_combine_comm_assoc_identity :
    (∀ a b : DistributionData, a.combine (some b) = b.combine (some a)) ∧
    (∀ a b c : DistributionData,
      (a.combine (some b)).combine (some c) =
        a.combine (some (b.combine (some c)))) ∧
    DistributionAggregator.zero = ⟨0, 0, none, none⟩ ∧
    (∀ a : DistributionData,
      a.combine (some DistributionAggregator.zero) = a ∧
      DistributionAggregator.zero.combine (some a) = a) := by
  refine ⟨?_, ?_, rfl, ?_⟩
  · intro a b
    simp [DistributionData.combine, minNonNone_comm, maxNonNone_comm,
      Int.add_comm]
  · intro a b c
    simp [DistributionData.combine, minNonNone_assoc, maxNonNone_assoc,
      Int.add_assoc]
  · intro a
    obtain ⟨s, c, m, M⟩ := a
    cases m <;> cases M <;>
      simp [DistributionData.combine, DistributionAggregator.zero,
        DistributionData.minNonNone, DistributionData.maxNonNone]

/-- Folding counter cells with `CounterCell.combine` accumulates the sum
of the values. -/
theorem counter_fold_value (l : List ℚ) :
    ∀ c : CounterCellState,
      ((l.map fun v => (⟨v, CommitState.DIRTY⟩ : CounterCellState)).foldl
          CounterCell.combine c).value = c.value + l.sum := by
  induction l with
  | nil => intro c; simp
  | cons x xs ih =>
      intro c
      simp only [List.map_cons, List.foldl_cons, ih, List.sum_cons]
      simp [CounterCell.combine, CounterCell.inc, CounterCell.init]
      ring

/-- **C7.** Combining counter cells holding `a` and `b` (integers ≥ 0)
yields a cell whose `get_cumulative` is `a + b`; `CounterCell.combine`
is commutative and associative; folding any list of counter values gives
the list's sum, and permuted lists fold to the same total. -/
theorem counter_combine_algebra :
    (∀ (a b : Int), 0 ≤ a → 0 ≤ b → ∀ (s t : CommitState),
      CounterCell.get_cumulative
          (CounterCell.combine ⟨(a : ℚ), s⟩ ⟨(b : ℚ), t⟩) =
        (a : ℚ) + (b : ℚ)) ∧
    (∀ x y : CounterCellState,
      CounterCell.combine x y = CounterCell.combine y x) ∧
    (∀ x y z : CounterCellState,
      CounterCell.combine (CounterCell.combine x y) z =
        CounterCell.combine x (CounterCell.combine y z)) ∧
    (∀ l : List ℚ,
      CounterCell.get_cumulative
          ((l.map fun v => (⟨v, CommitState.DIRTY⟩ : CounterCellState)).foldl
            CounterCell.combine CounterCell.init) = l.sum) ∧
    (∀ l₁ l₂ : List ℚ, l₁.Perm l₂ →
      CounterCell.get_cumulative
          ((l₁.map fun v => (⟨v, CommitState.DIRTY⟩ : CounterCellState)).foldl
            CounterCell.combine CounterCell.init) =
        CounterCell.get_cumulative
          ((l₂.map fun v => (⟨v, CommitState.DIRTY⟩ : CounterCellState)).foldl
            CounterCell.combine CounterCell.init)) := by
  refine ⟨?_, ?_, ?_, ?_, ?_⟩
  · intro a b _ _ s t
    simp [CounterCell.get_cumulative, CounterCell.combine, CounterCell.inc,
      CounterCell.init]
  · intro x y
    simp [CounterCell.combine, CounterCell.inc, Rat.add_comm]
  · intro x y z
    simp [CounterCell.combine, CounterCell.inc, CounterCell.init]
    ring
  · intro l
    simp [CounterCell.get_cumulative, counter_fold_value, CounterCell.init]
  · intro l₁ l₂ hperm
    simp [CounterCell.get_cumulative, counter_fold_value, CounterCell.init,
      hperm.sum_eq]

/-- Witness for C7 at `a = 3`, `b = 4` and the permutation
`[1, 2] ~ [2, 1]`. -/
theorem counter_combine_algebra_witness :
    CounterCell.get_cumulative
        (CounterCell.combine ⟨((3 : Int) : ℚ), CommitState.DIRTY⟩
          ⟨((4 : Int) : ℚ), CommitState.CLEAN⟩) =
      ((3 : Int) : ℚ) + ((4 : Int) : ℚ) ∧
    CounterCell.get_cumulative
        ((([1, 2] : List ℚ).map fun v =>
            (⟨v, CommitState.DIRTY⟩ : CounterCellState)).foldl
          CounterCell.combine CounterCell.init) =
      CounterCell.get_cumulative
        ((([2, 1] : List ℚ).map fun v =>
            (⟨v, CommitState.DIRTY⟩ : CounterCellState)).foldl
          CounterCell.combine CounterCell.init) :=
  ⟨counter_combine_algebra.1 3 4 (by decide) (by decide) _ _,
   counter_combine_algebra.2.2.2.2 [1, 2] [2, 1] (List.Perm.swap 2 1 [])⟩

/-- **C8.** `DistributionResult.mean` is an explicit `None` when the
count is zero and `sum / count` otherwise; the result built from the
values `[2, 4, 6]` has sum 12, count 3, min 2, max 6 and mean 4. -/
theorem distributionResult_mean_spec :
    (∀ r : DistributionResult, r.data.count = 0 → r.mean = none) ∧
    (∀ r : DistributionResult, r.data.count ≠ 0 →
      r.mean = some ((r.data.sum : ℚ) / (r.data.count : ℚ))) ∧
    (DistributionAggregator.result
        (DistributionCell.updateData
          (DistributionCell.updateData
            (DistributionCell.updateData DistributionAggregator.zero 2) 4) 6) =
      ⟨⟨12, 3, some 2, some 6⟩⟩ ∧
     DistributionResult.mean ⟨⟨12, 3, some 2, some 6⟩⟩ = some 4) := by
  refine ⟨?_, ?_, by decide, ?_⟩
  · intro r h
    simp [DistributionResult.mean, h]
  · intro r h
    simp [DistributionResult.mean, h]
  · rw [DistributionResult.mean]
    norm_num

/-- Witness for C8: the zero-count and nonzero-count branches at
concrete results. -/
theorem distributionResult_mean_spec_witness :
    DistributionResult.mean ⟨⟨0, 0, none, none⟩⟩ = none ∧
    DistributionResult.mean ⟨⟨12, 3, some 2, some 6⟩⟩ =
      some (((12 : Int) : ℚ) / ((3 : Int) : ℚ)) :=
  ⟨distributionResult_mean_spec.1 ⟨⟨0, 0, none, none⟩⟩ rfl,
   distributionResult_mean_spec.2.1 ⟨⟨12, 3, some 2, some 6⟩⟩ (by decide)⟩

/-- **C9.** `DistributionCell.update` coerces every numeric argument to
an integer by truncation toward zero before any statistic is touched:
the recorded value `pyTrunc q` satisfies the truncation-toward-zero
characterisation (its magnitude is the floor of the argument's
magnitude and its sign agrees weakly with the argument's), all four
statistics are updated from the truncated value only, and `2.9` is
recorded as `2` (and `-2.9` as `-2`). -/
theorem distribution_update_truncates :
    (∀ (c : DistributionCellState) (q : ℚ),
      DistributionCell.update c (.vfloat q) =
        .ok ⟨CommitState.DIRTY,
          DistributionCell.updateData c.data (pyTrunc q)⟩) ∧
    (∀ (c : DistributionCellState) (n : Int),
      DistributionCell.update c (.vint n) =
        .ok ⟨CommitState.DIRTY, DistributionCell.updateData c.data n⟩) ∧
    (∀ q : ℚ,
      |(pyTrunc q : ℚ)| ≤ |q| ∧ |q| < |(pyTrunc q : ℚ)| + 1 ∧
      (0 ≤ q → 0 ≤ pyTrunc q) ∧ (q ≤ 0 → pyTrunc q ≤ 0)) ∧
    pyTrunc (29 / 10) = 2 ∧ pyTrunc (-29 / 10) = -2 := by
  refine ⟨fun c q => rfl, fun c n => rfl, ?_, ?_, ?_⟩
  · intro q
    by_cases hq : 0 ≤ q
    · rw [pyTrunc, if_pos hq]
      have h0 : (0 : Int) ≤ ⌊q⌋ := Int.floor_nonneg.mpr hq
      have h0' : (0 : ℚ) ≤ (⌊q⌋ : ℚ) := by exact_mod_cast h0
      rw [abs_of_nonneg hq, abs_of_nonneg h0']
      refine ⟨Int.floor_le q, Int.lt_floor_add_one q, fun _ => h0, ?_⟩
      intro hq0
      have : q = 0 := le_antisymm hq0 hq
      simp [this]
    · push_neg at hq
      rw [pyTrunc, if_neg (not_le.mpr hq)]
      have hc : (⌈q⌉ : Int) ≤ 0 := Int.ceil_le.mpr (by push_cast; exact hq.le)
      have hc' : ((⌈q⌉ : Int) : ℚ) ≤ 0 := by exact_mod_cast hc
      rw [abs_of_nonpos hq.le, abs_of_nonpos hc']
      refine ⟨by linarith [Int.le_ceil q], ?_, fun h0 => absurd h0 (not_le.mpr hq),
        fun _ => hc⟩
      have := Int.ceil_lt_add_one q
      linarith
  · rw [pyTrunc, if_pos (by norm_num)]
    rw [Int.floor_eq_iff]
    norm_num
  · rw [pyTrunc, if_neg (by norm_num)]
    rw [Int.ceil_eq_iff]
    norm_num

/-- **C3 counterexample.** On a CLEAN distribution cell,
`update(None)` raises — but the cell is not left entirely unmodified:
the commit tracker has already been marked DIRTY before the failing
`int(value)` coercion runs, so the resulting state differs from the
original. -/
theorem update_invalid_counterexample :
    DistributionCell.update ⟨CommitState.CLEAN, ⟨5, 1, some 5, some 5⟩⟩
        PyVal.vnone =
      .error ⟨CommitState.DIRTY, ⟨5, 1, some 5, some 5⟩⟩ ∧
    (⟨CommitState.DIRTY, ⟨5, 1, some 5, some 5⟩⟩ : DistributionCellState) ≠
      ⟨CommitState.CLEAN, ⟨5, 1, some 5, some 5⟩⟩ :=
  ⟨rfl, by decide⟩

/-- **C3 (amended).** On a non-convertible argument,
`DistributionCell.update` raises with all four data fields (sum, count,
min, max) unmodified, but with the commit tracker already marked DIRTY
— the dirty bit is set before validation; `CounterCell.inc` with a
non-addable argument raises with the cell entirely unmodified, value
and commit state both. -/
theorem update_invalid_partial_effects :
    (∀ (c : DistributionCellState) (v : PyVal), pyInt v = none →
      DistributionCell.update c v =
        .error ⟨CommitState.DIRTY, c.data⟩) ∧
    (∀ (c : CounterCellState) (v : PyVal), pyNum v = none →
      CounterCell.incChecked c v = .error c) := by
  constructor
  · intro c v h
    obtain ⟨cc, cd⟩ := c
    simp [DistributionCell.update, h, CellCommitState.after_modification]
  · intro c v h
    simp [CounterCell.incChecked, h]

/-- Witness for the amended C3 at `None` arguments on concrete cells. -/
theorem update_invalid_partial_effects_witness :
    DistributionCell.update ⟨CommitState.CLEAN, ⟨7, 2, some 3, some 4⟩⟩
        PyVal.vnone =
      .error ⟨CommitState.DIRTY, ⟨7, 2, some 3, some 4⟩⟩ ∧
    CounterCell.incChecked ⟨9, CommitState.CLEAN⟩ PyVal.vnone =
      .error ⟨9, CommitState.CLEAN⟩ :=
  ⟨update_invalid_partial_effects.1 ⟨CommitState.CLEAN, ⟨7, 2, some 3, some 4⟩⟩
      PyVal.vnone rfl,
   update_invalid_partial_effects.2 ⟨9, CommitState.CLEAN⟩ PyVal.vnone rfl⟩

/-- Running only `after_modification` calls (at least one) leaves the
tracker DIRTY from any starting state. -/
theorem commitRun_all_modifications :
    ∀ (mids : List CommitOp), (∀ o ∈ mids, o = CommitOp.modification) →
      mids ≠ [] → ∀ s : CommitState, commitRun s mids = CommitState.DIRTY := by
  intro mids
  induction mids with
  | nil => intro _ hne; exact absurd rfl hne
  | cons o rest ih =>
      intro hall _ s
      have ho : o = CommitOp.modification := hall o (by simp)
      subst ho
      rcases Decidable.em (rest = []) with hr | hr
      · subst hr; rfl
      · have : commitRun s (CommitOp.modification :: rest) =
            commitRun CommitState.DIRTY rest := rfl
        rw [this]
        exact ih (fun o hm => hall o (by simp [hm])) hr CommitState.DIRTY

/-- `before_commit` answers `true` from any state other than CLEAN. -/
theorem before_commit_true_of_ne_clean :
    ∀ s : CommitState, s ≠ CommitState.CLEAN →
      (CellCommitState.before_commit s).1 = true := by
  intro s hs
  cases s with
  | DIRTY => rfl
  | CLEAN => exact absurd rfl hs
  | COMMITTING => rfl

/-- A run that reaches CLEAN from a non-CLEAN state performs some
`after_commit` call. -/
theorem afterC_mem_of_run_clean :
    ∀ (ops : List CommitOp) (s : CommitState), s ≠ CommitState.CLEAN →
      commitRun s ops = CommitState.CLEAN → CommitOp.afterC ∈ ops := by
  intro ops
  induction ops with
  | nil => intro s hs hrun; exact absurd hrun hs
  | cons o rest ih =>
      intro s hs hrun
      cases o with
      | modification =>
          have : commitRun s (CommitOp.modification :: rest) =
              commitRun CommitState.DIRTY rest := rfl
          rw [this] at hrun
          exact List.mem_cons_of_mem _ (ih CommitState.DIRTY (by decide) hrun)
      | beforeC =>
          have hst : commitStep s CommitOp.beforeC = CommitState.COMMITTING := by
            cases s with
            | DIRTY => rfl
            | CLEAN => exact absurd rfl hs
            | COMMITTING => rfl
          have : commitRun s (CommitOp.beforeC :: rest) =
              commitRun (commitStep s CommitOp.beforeC) rest := rfl
          rw [this, hst] at hrun
          exact List.mem_cons_of_mem _ (ih CommitState.COMMITTING (by decide) hrun)
      | afterC => exact List.mem_cons_self _ _

/-- A run that takes a DIRTY tracker to CLEAN contains a completed
handshake: a `before_commit` call followed by an `after_commit` call. -/
theorem handshake_of_run_dirty_clean :
    ∀ ops : List CommitOp,
      commitRun CommitState.DIRTY ops = CommitState.CLEAN → HandshakeIn ops := by
  intro ops
  induction ops with
  | nil => intro hrun; simp [commitRun] at hrun
  | cons o rest ih =>
      intro hrun
      cases o with
      | modification =>
          have : commitRun CommitState.DIRTY (CommitOp.modification :: rest) =
              commitRun CommitState.DIRTY rest := rfl
          rw [this] at hrun
          obtain ⟨l, m, r, hdecomp⟩ := ih hrun
          exact ⟨CommitOp.modification :: l, m, r, by simp [hdecomp]⟩
      | afterC =>
          have : commitRun CommitState.DIRTY (CommitOp.afterC :: rest) =
              commitRun CommitState.DIRTY rest := rfl
          rw [this] at hrun
          obtain ⟨l, m, r, hdecomp⟩ := ih hrun
          exact ⟨CommitOp.afterC :: l, m, r, by simp [hdecomp]⟩
      | beforeC =>
          have : commitRun CommitState.DIRTY (CommitOp.beforeC :: rest) =
              commitRun CommitState.COMMITTING rest := rfl
          rw [this] at hrun
          have hmem : CommitOp.afterC ∈ rest :=
            afterC_mem_of_run_clean rest CommitState.COMMITTING (by decide) hrun
          obtain ⟨m, r, hmr⟩ := List.append_of_mem hmem
          exact ⟨[], m, r, by simp [hmr]⟩

/-- **C1.** The tracker is conservative:
(i) whenever `after_modification` fires (possibly repeatedly, as from
concurrent writers) between a `before_commit` that returned true and the
matching `after_commit`, the state after that `after_commit` is DIRTY
and the next `before_commit` returns true;
(ii) after any `after_modification` that is not followed by a completed
handshake (`before_commit` then `after_commit`), the state is never
CLEAN and `before_commit` would return true — an uncommitted pending
modification is never reported CLEAN. -/
theorem commit_tracker_conservative :
    (∀ (pre mids : List CommitOp),
      (CellCommitState.before_commit
          (commitRun CellCommitState.init pre)).1 = true →
      (∀ o ∈ mids, o = CommitOp.modification) → mids ≠ [] →
      CellCommitState.after_commit
          (commitRun
            (CellCommitState.before_commit
              (commitRun CellCommitState.init pre)).2 mids) =
        CommitState.DIRTY ∧
      (CellCommitState.before_commit
          (CellCommitState.after_commit
            (commitRun
              (CellCommitState.before_commit
                (commitRun CellCommitState.init pre)).2 mids))).1 = true) ∧
    (∀ (t1 t2 : List CommitOp), ¬ HandshakeIn t2 →
      commitRun CellCommitState.init
          (t1 ++ CommitOp.modification :: t2) ≠ CommitState.CLEAN ∧
      (CellCommitState.before_commit
          (commitRun CellCommitState.init
            (t1 ++ CommitOp.modification :: t2))).1 = true) := by
  constructor
  · intro pre mids _ hall hne
    rw [commitRun_all_modifications mids hall hne]
    exact ⟨rfl, rfl⟩
  · intro t1 t2 hnh
    have hsplit : commitRun CellCommitState.init
        (t1 ++ CommitOp.modification :: t2) =
        commitRun CommitState.DIRTY t2 := by
      rw [commitRun, List.foldl_append]
      rfl
    rw [hsplit]
    have hne : commitRun CommitState.DIRTY t2 ≠ CommitState.CLEAN := by
      intro hclean
      exact hnh (handshake_of_run_dirty_clean t2 hclean)
    exact ⟨hne, before_commit_true_of_ne_clean _ hne⟩

/-- Witness for C1: the handshake `before_commit; after_modification;
after_commit` on a fresh tracker, and an `after_modification` with
nothing after it. -/
theorem commit_tracker_conservative_witness :
    (CellCommitState.after_commit
        (commitRun
          (CellCommitState.before_commit
            (commitRun CellCommitState.init [])).2 [CommitOp.modification]) =
      CommitState.DIRTY ∧
     (CellCommitState.before_commit
        (CellCommitState.after_commit
          (commitRun
            (CellCommitState.before_commit
              (commitRun CellCommitState.init [])).2
            [CommitOp.modification]))).1 = true) ∧
    (commitRun CellCommitState.init
        ([] ++ CommitOp.modification :: []) ≠ CommitState.CLEAN ∧
     (CellCommitState.before_commit
        (commitRun CellCommitState.init
          ([] ++ CommitOp.modification :: []))).1 = true) :=
  ⟨commit_tracker_conservative.1 [] [CommitOp.modification] rfl
      (by decide) (by decide),
   commit_tracker_conservative.2 [] []
      (by rintro ⟨l, m, r, h⟩; exact absurd h (by simp))⟩

/-- `minNonNone` is `none` exactly when both arguments are. -/
theorem minNonNone_eq_none_iff (x y : Option Int) :
    DistributionData.minNonNone x y = none ↔ x = none ∧ y = none := by
  cases x <;> cases y <;> simp [DistributionData.minNonNone]

/-- `maxNonNone` is `none` exactly when both arguments are. -/
theorem maxNonNone_eq_none_iff (x y : Option Int) :
    DistributionData.maxNonNone x y = none ↔ x = none ∧ y = none := by
  cases x <;> cases y <;> simp [DistributionData.maxNonNone]

/-- **C4.** Every `DistributionData` reachable through the public
operations satisfies the invariant: its count is the number of values
ever added; the count is zero exactly when min and max are both empty;
and when the count is positive, min ≤ max and both are among the values
ever added. -/
theorem distributionData_invariant :
    ∀ (d : DistributionData) (vs : Multiset Int), Reaches d vs →
      d.count = (Multiset.card vs : Int) ∧
      (d.count = 0 ↔ (d.min = none ∧ d.max = none)) ∧
      (0 < d.count → ∃ m M, d.min = some m ∧ d.max = some M ∧
        m ≤ M ∧ m ∈ vs ∧ M ∈ vs) := by
  intro d vs h
  induction h with
  | zero =>
      refine ⟨by simp [DistributionAggregator.zero],
        by simp [DistributionAggregator.zero], ?_⟩
      intro hgt
      simp [DistributionAggregator.zero] at hgt
  | singleton v =>
      refine ⟨by simp [DistributionData.singleton],
        by simp [DistributionData.singleton], ?_⟩
      intro _
      exact ⟨v, v, rfl, rfl, le_refl v, Multiset.mem_singleton_self v,
        Multiset.mem_singleton_self v⟩
  | update d vs v hr ih =>
      obtain ⟨hcard, hiff, hpos⟩ := ih
      have hnn : (0 : Int) ≤ d.count := by
        rw [hcard]; exact_mod_cast Nat.zero_le _
      have hcnt : (DistributionCell.updateData d v).count = d.count + 1 := rfl
      refine ⟨?_, ?_, ?_⟩
      · rw [hcnt, hcard, Multiset.card_cons]; push_cast; ring
      · constructor
        · intro h0
          rw [hcnt] at h0
          exact absurd h0 (by omega)
        · rintro ⟨hmin, -⟩
          exfalso
          rcases hdm : d.min with _ | m
          · have hs : (DistributionCell.updateData d v).min = some v := by
              simp [DistributionCell.updateData, hdm]
            rw [hs] at hmin
            exact Option.noConfusion hmin
          · have hs : (DistributionCell.updateData d v).min =
                (if m > v then some v else some m) := by
              simp [DistributionCell.updateData, hdm]
            rw [hs] at hmin
            split at hmin <;> exact Option.noConfusion hmin
      · intro _
        rcases hdm : d.min with _ | m
        · have hc0 : d.count = 0 := by
            by_contra hne
            obtain ⟨m', M', hm', -⟩ := hpos (lt_of_le_of_ne hnn (Ne.symm hne))
            rw [hdm] at hm'
            exact Option.noConfusion hm'
          obtain ⟨-, hMnone⟩ := hiff.mp hc0
          refine ⟨v, v, ?_, ?_, le_refl v, Multiset.mem_cons_self v vs,
            Multiset.mem_cons_self v vs⟩
          · simp [DistributionCell.updateData, hdm]
          · simp [DistributionCell.updateData, hMnone]
        · have hcne : d.count ≠ 0 := by
            intro h0
            obtain ⟨h1, -⟩ := hiff.mp h0
            rw [hdm] at h1
            exact Option.noConfusion h1
          obtain ⟨m', M, hm', hM, hle, hmmem, hMmem⟩ :=
            hpos (lt_of_le_of_ne hnn (Ne.symm hcne))
          rw [hdm] at hm'
          injection hm' with hme
          subst hme
          have hminEq : (DistributionCell.updateData d v).min =
              (if m > v then some v else some m) := by
            simp [DistributionCell.updateData, hdm]
          have hmaxEq : (DistributionCell.updateData d v).max =
              (if M < v then some v else some M) := by
            simp [DistributionCell.updateData, hM]
          by_cases h1 : m > v <;> by_cases h2 : M < v
          · exact ⟨v, v, by rw [hminEq, if_pos h1], by rw [hmaxEq, if_pos h2],
              le_refl v, Multiset.mem_cons_self v vs, Multiset.mem_cons_self v vs⟩
          · exact ⟨v, M, by rw [hminEq, if_pos h1], by rw [hmaxEq, if_neg h2],
              by omega, Multiset.mem_cons_self v vs,
              Multiset.mem_cons_of_mem hMmem⟩
          · exact ⟨m, v, by rw [hminEq, if_neg h1], by rw [hmaxEq, if_pos h2],
              by omega, Multiset.mem_cons_of_mem hmmem,
              Multiset.mem_cons_self v vs⟩
          · exact ⟨m, M, by rw [hminEq, if_neg h1], by rw [hmaxEq, if_neg h2],
              hle, Multiset.mem_cons_of_mem hmmem,
              Multiset.mem_cons_of_mem hMmem⟩
  | combine a b va vb hra hrb iha ihb =>
      obtain ⟨hacard, haiff, hapos⟩ := iha
      obtain ⟨hbcard, hbiff, hbpos⟩ := ihb
      have hann : (0 : Int) ≤ a.count := by
        rw [hacard]; exact_mod_cast Nat.zero_le _
      have hbnn : (0 : Int) ≤ b.count := by
        rw [hbcard]; exact_mod_cast Nat.zero_le _
      have hcnt : (a.combine (some b)).count = a.count + b.count := rfl
      have hminEq : (a.combine (some b)).min =
          DistributionData.minNonNone a.min b.min := rfl
      have hmaxEq : (a.combine (some b)).max =
          DistributionData.maxNonNone a.max b.max := rfl
      refine ⟨?_, ?_, ?_⟩
      · rw [hcnt, hacard, hbcard, Multiset.card_add]; push_cast; ring
      · constructor
        · intro h0
          rw [hcnt] at h0
          obtain ⟨ham, haM⟩ := haiff.mp (by omega)
          obtain ⟨hbm, hbM⟩ := hbiff.mp (by omega)
          rw [hminEq, hmaxEq, ham, haM, hbm, hbM]
          exact ⟨rfl, rfl⟩
        · rintro ⟨hmin, hmax⟩
          rw [hminEq, minNonNone_eq_none_iff] at hmin
          rw [hmaxEq, maxNonNone_eq_none_iff] at hmax
          have ha0 : a.count = 0 := haiff.mpr ⟨hmin.1, hmax.1⟩
          have hb0 : b.count = 0 := hbiff.mpr ⟨hmin.2, hmax.2⟩
          rw [hcnt, ha0, hb0]
          ring
      · intro hgt
        rw [hcnt] at hgt
        rcases Decidable.em (a.count = 0) with ha0 | hane
        · obtain ⟨ham, haM⟩ := haiff.mp ha0
          obtain ⟨m, M, hm, hM, hle, hmm, hMm⟩ :=
            hbpos (by omega)
          refine ⟨m, M, ?_, ?_, hle,
            Multiset.mem_add.mpr (Or.inr hmm),
            Multiset.mem_add.mpr (Or.inr hMm)⟩
          · rw [hminEq, ham, hm]; rfl
          · rw [hmaxEq, haM, hM]; rfl
        · obtain ⟨ma, Ma, hma, hMa, hlea, hmam, hMam⟩ :=
            hapos (lt_of_le_of_ne hann (Ne.symm hane))
          rcases Decidable.em (b.count = 0) with hb0 | hbne
          · obtain ⟨hbm, hbM⟩ := hbiff.mp hb0
            refine ⟨ma, Ma, ?_, ?_, hlea,
              Multiset.mem_add.mpr (Or.inl hmam),
              Multiset.mem_add.mpr (Or.inl hMam)⟩
            · rw [hminEq, hma, hbm]; rfl
            · rw [hmaxEq, hMa, hbM]; rfl
          · obtain ⟨mb, Mb, hmb, hMb, hleb, hmbm, hMbm⟩ :=
              hbpos (lt_of_le_of_ne hbnn (Ne.symm hbne))
            refine ⟨Min.min ma mb, Max.max Ma Mb, ?_, ?_, ?_, ?_, ?_⟩
            · rw [hminEq, hma, hmb]; rfl
            · rw [hmaxEq, hMa, hMb]; rfl
            · calc Min.min ma mb ≤ ma := min_le_left _ _
                _ ≤ Ma := hlea
                _ ≤ Max.max Ma Mb := le_max_left _ _
            · rcases min_choice ma mb with h | h
              · rw [h]; exact Multiset.mem_add.mpr (Or.inl hmam)
              · rw [h]; exact Multiset.mem_add.mpr (Or.inr hmbm)
            · rcases max_choice Ma Mb with h | h
              · rw [h]; exact Multiset.mem_add.mpr (Or.inl hMam)
              · rw [h]; exact Multiset.mem_add.mpr (Or.inr hMbm)

/-- Witness for C4 at the reachable value
`singleton(1).combine(singleton(5))` with value multiset `{1, 5}`. -/
theorem distributionData_invariant_witness :
    ((DistributionData.singleton 1).combine
        (some (DistributionData.singleton 5))).count =
      (Multiset.card (({1} : Multiset Int) + {5}) : Int) ∧
    (((DistributionData.singleton 1).combine
        (some (DistributionData.singleton 5))).count = 0 ↔
      (((DistributionData.singleton 1).combine
          (some (DistributionData.singleton 5))).min = none ∧
       ((DistributionData.singleton 1).combine
          (some (DistributionData.singleton 5))).max = none)) ∧
    (0 < ((DistributionData.singleton 1).combine
        (some (DistributionData.singleton 5))).count →
      ∃ m M,
        ((DistributionData.singleton 1).combine
            (some (DistributionData.singleton 5))).min = some m ∧
        ((DistributionData.singleton 1).combine
            (some (DistributionData.singleton 5))).max = some M ∧
        m ≤ M ∧ m ∈ (({1} : Multiset Int) + {5}) ∧
        M ∈ (({1} : Multiset Int) + {5})) :=
  distributionData_invariant _ _
    (Reaches.combine _ _ _ _ (Reaches.singleton 1) (Reaches.singleton 5))

end Beam
